import Mathlib

/-!
Shallow embedding of the library entry/exit tracking application.

The source is a TypeScript/React application.  The verified core is the
scan-to-log pipeline of the scan page (`sharedProcessLogic` and its helpers
`getStudentById`, `getLastLogForStudent`, `saveEntryLog`,
`compareImagesRoughly`) together with the student add/edit handlers
(`handleFormSubmit` on the add-student page, `handleEditSubmit` on the
dashboard page).

Modelling conventions:
* JavaScript strings are `List Char`; `String.prototype.trim` /
  `toLowerCase` / `toUpperCase` are embedded character-wise (`jsTrim`,
  `jsToLower`, `jsToUpper`).  JS `toLowerCase` is Unicode aware; the chars
  appearing in ids here are ASCII, for which `Char.toLower` agrees.
* A JS value of type `string | undefined` is `Option (List Char)`.  JS
  truthiness of such a value (`if (s) ...`) is `jsTruthy`: both `undefined`
  and the empty string are falsy.
* `Date.getTime()` values (timestamps) are `Int` milliseconds.  The source
  computes `(now - last) / 1000` and percentage thresholds in IEEE floats;
  for the integer operand ranges that occur (string lengths, millisecond
  differences) those comparisons coincide with exact arithmetic, so the
  embedding uses exact integer arithmetic: `x < 10` on the seconds
  difference becomes `ms < 10000`, `|l1-l2| > max*0.05` becomes
  `20*|l1-l2| > max`, `Math.floor(l*0.1)` becomes `l / 10`, and
  `Math.ceil` of the remaining wait is an exact ceiling division.
* The stateful `sharedProcessLogic` (reads the log store, optionally
  appends) is embedded by explicit state passing: it takes the current log
  store and returns the outcome (`Except ProcessError EntryLog`) together
  with the resulting log store.  The two `throw` sites become the two
  `ProcessError` constructors.
-/

namespace Agppi

/-- Whitespace recognised by `String.prototype.trim` (the characters of the
JS WhiteSpace/LineTerminator productions that occur in practice). -/
def jsWhitespace (c : Char) : Bool :=
  decide (c = ' ') || decide (c = '\t') || decide (c = '\n') || decide (c = '\r') ||
  decide (c = '\x0b') || decide (c = '\x0c') || decide (c = ' ')

/-- JS `String.prototype.trim`: drop whitespace from both ends. -/
def jsTrim (s : List Char) : List Char :=
  ((s.dropWhile jsWhitespace).reverse.dropWhile jsWhitespace).reverse

/-- JS `String.prototype.toLowerCase`, character-wise. -/
def jsToLower (s : List Char) : List Char := s.map Char.toLower

/-- JS `String.prototype.toUpperCase`, character-wise. -/
def jsToUpper (s : List Char) : List Char := s.map Char.toUpper

/-- The normal form `id.trim().toLowerCase()` used by every id
comparison in the source. -/
def normalizeId (s : List Char) : List Char := jsToLower (jsTrim s)

/-- JS truthiness of a `string | undefined` value: `undefined` and the
empty string are falsy. -/
def jsTruthy : Option (List Char) → Bool
  | none => false
  | some s => !s.isEmpty

/-- Source `type EntryType`, values Entry and Exit (src/lib/types.ts). -/
inductive EntryType where
  | Entry
  | Exit
deriving DecidableEq, Repr

/-- Source year-of-study values FY, SY, TY (src/lib/types.ts). -/
inductive YearOfStudy where
  | FY
  | SY
  | TY
deriving DecidableEq, Repr

/-- Source `interface Student` (src/lib/types.ts, revised form: `enrollNo` and
`yearOfStudy` optional). -/
structure Student where
  id : List Char
  name : List Char
  branch : List Char
  enrollNo : Option (List Char)
  yearOfStudy : Option YearOfStudy
  idCardImageUri : Option (List Char)
  createdAt : Int
deriving DecidableEq, Repr

/-- Source `interface EntryLog` (src/lib/types.ts); `timestamp` is the
`Date.getTime()` value in milliseconds. -/
structure EntryLog where
  id : List Char
  studentId : List Char
  studentName : List Char
  branch : List Char
  timestamp : Int
  type : EntryType
  imageMatch : Option Bool
deriving DecidableEq, Repr

/-- Constant `MIN_LIBRARY_INTERVAL_SECONDS = 10` (src/lib/constants.ts). -/
def MIN_LIBRARY_INTERVAL_SECONDS : Int := 10

/-- Source `getStudentById` (scan page): find the stored student whose
trimmed, lowercased id equals the trimmed, lowercased input. -/
def getStudentById (students : List Student) (id : List Char) : Option Student :=
  let trimmedId := normalizeId id
  students.find? (fun s => decide (normalizeId s.id = trimmedId))

/-- The log-store entries for a given (already normalized) student id, in
store order — the `logs.filter(...)` step of `getLastLogForStudent`. -/
def logsFor (nid : List Char) (logs : List EntryLog) : List EntryLog :=
  logs.filter (fun log => decide (normalizeId log.studentId = nid))

/-- Source `getLastLogForStudent` (scan page): filter the log store by normalized
student id, sort descending by timestamp (stable) and take the head.  The
head of the stable descending sort is the first entry attaining the
maximal timestamp, which the fold below computes directly. -/
def getLastLogForStudent (logs : List EntryLog) (studentId : List Char) : Option EntryLog :=
  match logsFor (normalizeId studentId) logs with
  | [] => none
  | x :: xs => some (xs.foldl (fun best l => if best.timestamp < l.timestamp then l else best) x)

/-- Source `saveEntryLog` (scan page): `logs.push(log)` on the stored array. -/
def saveEntryLog (logs : List EntryLog) (log : EntryLog) : List EntryLog :=
  logs ++ [log]

/-- Source `compareImagesRoughly` (scan page).  The type `boolean | undefined` is
`Option Bool`.  The JS guard `if (!imageUri1 || !imageUri2)` is falsy both
for `undefined` and for the empty string, hence the emptiness test. -/
def compareImagesRoughly (imageUri1 imageUri2 : Option (List Char)) : Option Bool :=
  match imageUri1, imageUri2 with
  | some u1, some u2 =>
    if u1.isEmpty || u2.isEmpty then none
    else if u1 = u2 then some true
    else
      -- |l1 - l2| > max(l1,l2) * 0.05, exactly: 20 * |l1 - l2| > max(l1,l2)
      if 20 * (max u1.length u2.length - min u1.length u2.length) > max u1.length u2.length then
        some false
      else
        -- Math.min(500, floor(l1 * 0.1), floor(l2 * 0.1))
        let segmentLength := min 500 (min (u1.length / 10) (u2.length / 10))
        if segmentLength < 50 then none
        else
          -- u.substring(u.length - segmentLength): trailing window
          let segment1 := u1.drop (u1.length - segmentLength)
          let segment2 := u2.drop (u2.length - segmentLength)
          some (decide (segment1 = segment2))
  | _, _ => none

/-- The spec's tri-state `MatchVerdict`. -/
inductive MatchVerdict where
  | Match
  | Mismatch
  | Inconclusive
deriving DecidableEq, Repr

/-- The spec's reading of the source's `boolean | undefined` comparison
result: `true ↦ Match`, `false ↦ Mismatch`, `undefined ↦ Inconclusive`. -/
def toVerdict : Option Bool → MatchVerdict
  | some true => .Match
  | some false => .Mismatch
  | none => .Inconclusive

/-- The spec's mapping of a `MatchVerdict` onto the stored tri-state
`imageMatch` field: Match ↦ true, Mismatch ↦ false, Inconclusive ↦ absent. -/
def verdictAsOptionBool : MatchVerdict → Option Bool
  | .Match => some true
  | .Mismatch => some false
  | .Inconclusive => none

/-- The `source` argument of `sharedProcessLogic`: scan or manual. -/
inductive Source where
  | scan
  | manual
deriving DecidableEq, Repr

/-- The two `throw` sites of `sharedProcessLogic` that precede the log
write: student lookup failure (message echoes the uppercased id) and the
rate-limit gate (message carries the rounded-up remaining wait, in
seconds). -/
inductive ProcessError where
  | identityNotFound (shownId : List Char)
  | rateLimited (waitRemaining : Int)
deriving DecidableEq, Repr

/-- The fresh log id ``log_${now.getTime()}_${student.id}`` derived from
the current timestamp and the student's stored id. -/
def logIdOf (now : Int) (sid : List Char) : List Char :=
  "log_".data ++ (toString now).data ++ "_".data ++ sid

/-- The image-comparison step of `sharedProcessLogic`: only a scan with a
truthy captured image against a student holding a truthy registered image
is compared; otherwise `imageMatchResult` stays `undefined`. -/
def scanComparisonResult (source : Source) (scannedImageUri : Option (List Char))
    (student : Student) : Option Bool :=
  if decide (source = .scan) && jsTruthy scannedImageUri && jsTruthy student.idCardImageUri then
    compareImagesRoughly student.idCardImageUri scannedImageUri
  else none

/-- The `newLog` record built by `sharedProcessLogic` on success. -/
def buildLog (student : Student) (now : Int) (imageMatchResult : Option Bool)
    (currentAction : EntryType) : EntryLog :=
  { id := logIdOf now student.id
    studentId := student.id
    studentName := student.name
    branch := student.branch
    timestamp := now
    type := currentAction
    imageMatch := imageMatchResult }

/-- Source `sharedProcessLogic` (scan page), restricted to its store-affecting
core (lines 176–219): resolve the student, compute the image verdict,
read the last log, apply the rate-limit gate, pick Entry/Exit, build and
save the new log.  State passing makes the log store explicit: the second
component is the store after the call (`saveEntryLog` ran only on
success). -/
def sharedProcessLogic (students : List Student) (logs : List EntryLog)
    (studentId : List Char) (source : Source) (scannedImageUri : Option (List Char))
    (now : Int) : Except ProcessError EntryLog × List EntryLog :=
  match getStudentById students studentId with
  | none => (Except.error (.identityNotFound (jsToUpper studentId)), logs)
  | some student =>
    let imageMatchResult := scanComparisonResult source scannedImageUri student
    match getLastLogForStudent logs studentId with
    | some lastLog =>
      let timeDiffMs : Int := now - lastLog.timestamp
      if timeDiffMs < MIN_LIBRARY_INTERVAL_SECONDS * 1000 then
        -- Math.ceil(MIN - diffSeconds) = ⌈(MIN*1000 - diffMs) / 1000⌉, an exact
        -- ceiling division (the numerator is positive in this branch)
        (Except.error (.rateLimited
          ((MIN_LIBRARY_INTERVAL_SECONDS * 1000 - timeDiffMs + 999) / 1000)), logs)
      else
        let currentAction := if lastLog.type = .Entry then EntryType.Exit else .Entry
        let newLog := buildLog student now imageMatchResult currentAction
        (Except.ok newLog, saveEntryLog logs newLog)
    | none =>
      let newLog := buildLog student now imageMatchResult .Entry
      (Except.ok newLog, saveEntryLog logs newLog)

/-! ### Student add/edit handlers (add-student page and dashboard page) -/

/-- Source `StudentFormData` (src/components/student-form.tsx): the validated
form payload of both the add and the edit dialog. -/
structure StudentFormData where
  id : List Char
  name : List Char
  branch : List Char
  enrollNo : Option (List Char)
  yearOfStudy : Option YearOfStudy
deriving DecidableEq, Repr

/-- Source `handleFormSubmit` (add-student page): reject when a stored student's
normalized id equals the form id's normal form, otherwise push a new
student whose stored id is the trimmed form id and whose image is the
captured uri (`capturedImageUri || undefined`: empty string becomes
absent).  Returns (accepted?, resulting store). -/
def handleFormSubmit (students : List Student) (formData : StudentFormData)
    (capturedImageUri : Option (List Char)) (now : Int) : Bool × List Student :=
  match students.find? (fun s => decide (normalizeId s.id = normalizeId formData.id)) with
  | some _ => (false, students)
  | none =>
    let newStudent : Student :=
      { id := jsTrim formData.id
        name := formData.name
        branch := formData.branch
        enrollNo := formData.enrollNo
        yearOfStudy := formData.yearOfStudy
        idCardImageUri := if jsTruthy capturedImageUri then capturedImageUri else none
        createdAt := now }
    (true, students ++ [newStudent])

/-- Source `handleEditSubmit` (dashboard page): reject when some stored student
other than the one being edited (exact id inequality, as in the source's
`s.id !== studentToEdit.id`) has the same normalized id as the new form
id; otherwise replace the edited student (found by exact original id)
with the updated record `{...studentToEdit, ...formData, id: trim,
idCardImageUri: editImage || undefined}`.  Returns (accepted?, store). -/
def handleEditSubmit (students : List Student) (studentToEdit : Student)
    (formData : StudentFormData) (editModeCapturedImageUri : Option (List Char)) :
    Bool × List Student :=
  match students.find? (fun s =>
      decide (normalizeId s.id = normalizeId formData.id) && !decide (s.id = studentToEdit.id)) with
  | some _ => (false, students)
  | none =>
    let updatedStudentData : Student :=
      { id := jsTrim formData.id
        name := formData.name
        branch := formData.branch
        enrollNo := formData.enrollNo
        yearOfStudy := formData.yearOfStudy
        idCardImageUri := if jsTruthy editModeCapturedImageUri then editModeCapturedImageUri else none
        createdAt := studentToEdit.createdAt }
    (true, students.map (fun student =>
      if student.id = studentToEdit.id then updatedStudentData else student))

/-- The case-insensitive id-uniqueness invariant of the student store
(spec §3: no two Student records share the same id, case-insensitive). -/
def UniqueIds (students : List Student) : Prop :=
  students.Pairwise (fun a b => normalizeId a.id ≠ normalizeId b.id)

/-! ### Iterated classification (for the alternation invariant) -/

/-- One scan/manual submission: the inputs of `sharedProcessLogic`. -/
structure ScanRequest where
  rawId : List Char
  source : Source
  image : Option (List Char)
  now : Int
deriving DecidableEq, Repr

/-- The log store after one `sharedProcessLogic` call (unchanged when the
call failed). -/
def stepLogs (students : List Student) (logs : List EntryLog) (r : ScanRequest) :
    List EntryLog :=
  (sharedProcessLogic students logs r.rawId r.source r.image r.now).2

/-- The log store after a sequence of `sharedProcessLogic` calls. -/
def runRequests (students : List Student) (logs : List EntryLog)
    (reqs : List ScanRequest) : List EntryLog :=
  reqs.foldl (stepLogs students) logs

/-- Flip Entry/Exit. -/
def flipType : EntryType → EntryType
  | .Entry => .Exit
  | .Exit => .Entry

/-- Strict alternation of a type sequence, next expected type given. -/
def alternatesFrom : EntryType → List EntryType → Bool
  | _, [] => true
  | e, t :: ts => decide (t = e) && alternatesFrom (flipType e) ts

/-- Timestamps strictly ascending along the list. -/
def sortedByTime : List EntryLog → Bool
  | [] => true
  | [_] => true
  | a :: b :: rest => decide (a.timestamp < b.timestamp) && sortedByTime (b :: rest)

/-- The per-student history invariant: the store-order logs of the student
are strictly ascending in timestamp (so store order is the ascending
timestamp order) and their types alternate starting with Entry. -/
def goodHistory (nid : List Char) (logs : List EntryLog) : Bool :=
  sortedByTime (logsFor nid logs) &&
    alternatesFrom .Entry ((logsFor nid logs).map (·.type))

/-! ### Case-variant inputs (for the identity-resolver claim) -/

/-- Two characters that are equal, or are both letters with the same
lowering — "the same up to letter case". -/
def charCaseEq (c d : Char) : Bool :=
  decide (c = d) || (c.isAlpha && d.isAlpha && decide (c.toLower = d.toLower))

/-- Two strings that differ only in letter case. -/
def caseVariant : List Char → List Char → Bool
  | [], [] => true
  | c :: cs, d :: ds => charCaseEq c d && caseVariant cs ds
  | _, _ => false

/-! ### The spec's image-comparison algorithm (for the refinement claim) -/

/-- The image-similarity algorithm exactly as the spec words it:
Inconclusive if either payload is absent; else Match if identical; else
Mismatch when the lengths differ by more than 5% of the larger; else with
window = min(500, 10% of each length), Inconclusive when the window is
under 50, otherwise compare the trailing windows. -/
def compareImagesSpec (a b : Option (List Char)) : MatchVerdict :=
  match a, b with
  | some x, some y =>
    if x = y then .Match
    else if 20 * (max x.length y.length - min x.length y.length) > max x.length y.length then
      .Mismatch
    else
      let window := min 500 (min (x.length / 10) (y.length / 10))
      if window < 50 then .Inconclusive
      else if x.drop (x.length - window) = y.drop (y.length - window) then .Match
      else .Mismatch
  | _, _ => .Inconclusive

/-- Definition `compareImagesSpec` amended minimally to the source's behaviour: an
empty payload is treated like an absent one (JS falsiness of `""`), so
Inconclusive when either payload is absent or empty. -/
def compareImagesSpecAmended (a b : Option (List Char)) : MatchVerdict :=
  match a, b with
  | some x, some y =>
    if x.isEmpty || y.isEmpty then .Inconclusive
    else if x = y then .Match
    else if 20 * (max x.length y.length - min x.length y.length) > max x.length y.length then
      .Mismatch
    else
      let window := min 500 (min (x.length / 10) (y.length / 10))
      if window < 50 then .Inconclusive
      else if x.drop (x.length - window) = y.drop (y.length - window) then .Match
      else .Mismatch
  | _, _ => .Inconclusive

/-! ### Concrete sample data (used by the witness theorems) -/

/-- A registered student. -/
def sampleStudent : Student :=
  { id := "id123".data
    name := "Alice".data
    branch := "Computer Engg.".data
    enrollNo := some "E42".data
    yearOfStudy := some .FY
    idCardImageUri := none
    createdAt := 0 }

/-- A one-student store. -/
def sampleStudents : List Student := [sampleStudent]

/-- An Entry log for `sampleStudent` at t = 5000 ms. -/
def sampleLog : EntryLog :=
  { id := "log0".data
    studentId := "id123".data
    studentName := "Alice".data
    branch := "Computer Engg.".data
    timestamp := 5000
    type := .Entry
    imageMatch := none }

/-- A later Exit log for `sampleStudent` at t = 20000 ms. -/
def sampleLog2 : EntryLog :=
  { id := "log1".data
    studentId := "ID123 ".data
    studentName := "Alice".data
    branch := "Computer Engg.".data
    timestamp := 20000
    type := .Exit
    imageMatch := some true }

instance instDecEqExcept {ε α : Type} [DecidableEq ε] [DecidableEq α] :
    DecidableEq (Except ε α) := fun x y =>
  match x, y with
  | .ok a, .ok b =>
    if h : a = b then isTrue (by rw [h]) else isFalse (fun hc => by cases hc; exact h rfl)
  | .error a, .error b =>
    if h : a = b then isTrue (by rw [h]) else isFalse (fun hc => by cases hc; exact h rfl)
  | .ok _, .error _ => isFalse (fun hc => by cases hc)
  | .error _, .ok _ => isFalse (fun hc => by cases hc)

/-! ### C3: error atomicity -/

/-- C3.  Error atomicity: a scan-processing call appends a record to the
log store exactly when it succeeds; on an `identityNotFound` or
`rateLimited` error (the only errors) the store is returned unchanged. -/
theorem C3_error_atomicity (students : List Student) (logs : List EntryLog)
    (studentId : List Char) (source : Source) (img : Option (List Char)) (now : Int) :
    (sharedProcessLogic students logs studentId source img now).2 =
      match (sharedProcessLogic students logs studentId source img now).1 with
      | .error _ => logs
      | .ok lg => logs ++ [lg] := by
  unfold sharedProcessLogic
  cases getStudentById students studentId with
  | none => rfl
  | some student =>
    cases getLastLogForStudent logs studentId with
    | some lastLog =>
      by_cases h : now - lastLog.timestamp < MIN_LIBRARY_INTERVAL_SECONDS * 1000
      · simp [h]
      · simp [h, saveEntryLog]
    | none => rfl

/-! ### C10: symmetry of the image comparison -/

/-- C10.  The rough image comparison is symmetric in its two arguments:
the absence check, the identity check, the 5%-of-the-larger threshold,
the window size and the trailing-window equality are all symmetric. -/
theorem C10_compare_symm (a b : Option (List Char)) :
    compareImagesRoughly a b = compareImagesRoughly b a := by
  cases a with
  | none => cases b <;> rfl
  | some x =>
    cases b with
    | none => rfl
    | some y =>
      by_cases hxy : x = y
      · subst hxy; rfl
      · have hyx : ¬ y = x := fun h => hxy h.symm
        simp only [compareImagesRoughly]
        rw [Bool.or_comm y.isEmpty x.isEmpty, if_neg hxy, if_neg hyx,
          Nat.max_comm y.length x.length, Nat.min_comm y.length x.length,
          Nat.min_comm (y.length / 10) (x.length / 10)]
        have hdec : ∀ (s t : List Char), decide (s = t) = decide (t = s) := fun s t =>
          decide_eq_decide.mpr eq_comm
        simp only [hdec]

/-! ### C4: the image-similarity algorithm against the spec's wording -/

/-- C4, counterexample to the claim as stated.  The claim demands `Match`
for identical, non-absent payloads, but on two identical **empty**
payloads the code returns `undefined` (JS falsiness of the empty string),
i.e. Inconclusive, while the claim's algorithm (`compareImagesSpec`)
returns `Match`. -/
theorem C4_counterexample :
    compareImagesRoughly (some ([] : List Char)) (some ([] : List Char)) = none ∧
    compareImagesSpec (some ([] : List Char)) (some ([] : List Char)) = MatchVerdict.Match :=
  ⟨rfl, rfl⟩

/-- C4, amended: the comparison follows the claim's algorithm with the one
amendment that an empty payload counts as absent (Inconclusive), matching
the source's falsy guard. -/
theorem C4_compare_matches_spec (a b : Option (List Char)) :
    toVerdict (compareImagesRoughly a b) = compareImagesSpecAmended a b := by
  cases a with
  | none => cases b <;> rfl
  | some x =>
    cases b with
    | none => rfl
    | some y =>
      simp only [compareImagesRoughly, compareImagesSpecAmended]
      by_cases he : (x.isEmpty || y.isEmpty) = true
      · simp [he, toVerdict]
      · simp only [if_neg he]
        by_cases hxy : x = y
        · simp [hxy, toVerdict]
        · simp only [if_neg hxy]
          by_cases ht :
              20 * (max x.length y.length - min x.length y.length) > max x.length y.length
          · simp [ht, toVerdict]
          · simp only [if_neg ht]
            by_cases hw : min 500 (min (x.length / 10) (y.length / 10)) < 50
            · simp [hw, toVerdict]
            · simp only [if_neg hw]
              by_cases hs :
                  x.drop (x.length - min 500 (min (x.length / 10) (y.length / 10))) =
                    y.drop (y.length - min 500 (min (x.length / 10) (y.length / 10)))
              · simp [hs, toVerdict]
              · simp [hs, toVerdict]

/-! ### C9: the image verdict never interferes with the log decision -/

/-- Forget the `imageMatch` field of a log record. -/
def eraseImageMatch (lg : EntryLog) : EntryLog := { lg with imageMatch := none }

/-- C9.  Image-verdict noninterference: with student store, log store, id,
source and time fixed, two runs with different captured images (hence
arbitrary different similarity verdicts) have the same outcome and the
same resulting log store up to the `imageMatch` field: errors are
identical, a log is written in one run exactly when it is written in the
other, and the written logs agree on every field but `imageMatch`. -/
theorem C9_image_noninterference (students : List Student) (logs : List EntryLog)
    (studentId : List Char) (source : Source) (img1 img2 : Option (List Char)) (now : Int) :
    Except.map eraseImageMatch (sharedProcessLogic students logs studentId source img1 now).1 =
      Except.map eraseImageMatch (sharedProcessLogic students logs studentId source img2 now).1 ∧
    (sharedProcessLogic students logs studentId source img1 now).2.map eraseImageMatch =
      (sharedProcessLogic students logs studentId source img2 now).2.map eraseImageMatch := by
  unfold sharedProcessLogic
  cases getStudentById students studentId with
  | none => exact ⟨rfl, rfl⟩
  | some student =>
    cases getLastLogForStudent logs studentId with
    | some lastLog =>
      by_cases h : now - lastLog.timestamp < MIN_LIBRARY_INTERVAL_SECONDS * 1000
      · simp [h]
      · simp [h, saveEntryLog, eraseImageMatch, buildLog, Except.map]
    | none => simp [saveEntryLog, eraseImageMatch, buildLog, Except.map]

/-! ### C5: construction of the written log record -/

/-- Round trip of the spec's verdict mapping over the source's
`boolean | undefined` value. -/
theorem verdictAsOptionBool_toVerdict (r : Option Bool) :
    verdictAsOptionBool (toVerdict r) = r := by
  rcases r with _ | b
  · rfl
  · cases b <;> rfl

/-- C5.  A successful classification writes a log whose id is derived from
the current timestamp and the student's stored id, whose name/branch are
copied from the resolved student record, whose timestamp is `now`, and
whose `imageMatch` is the similarity verdict mapped Match ↦ true,
Mismatch ↦ false, Inconclusive ↦ absent. -/
theorem C5_log_construction (students : List Student) (logs : List EntryLog)
    (studentId : List Char) (source : Source) (img : Option (List Char)) (now : Int)
    (u : Student) (lg : EntryLog)
    (hfind : getStudentById students studentId = some u)
    (hok : (sharedProcessLogic students logs studentId source img now).1 = Except.ok lg) :
    lg.id = logIdOf now u.id ∧ lg.studentId = u.id ∧ lg.studentName = u.name ∧
    lg.branch = u.branch ∧ lg.timestamp = now ∧
    lg.imageMatch = verdictAsOptionBool (toVerdict (scanComparisonResult source img u)) := by
  rw [verdictAsOptionBool_toVerdict]
  unfold sharedProcessLogic at hok
  rw [hfind] at hok
  cases hl : getLastLogForStudent logs studentId with
  | some lastLog =>
    rw [hl] at hok
    by_cases h : now - lastLog.timestamp < MIN_LIBRARY_INTERVAL_SECONDS * 1000
    · simp [h] at hok
    · simp only [if_neg h] at hok
      simp only [Except.ok.injEq] at hok
      rw [← hok]
      exact ⟨rfl, rfl, rfl, rfl, rfl, rfl⟩
  | none =>
    rw [hl] at hok
    simp only [Except.ok.injEq] at hok
    rw [← hok]
    exact ⟨rfl, rfl, rfl, rfl, rfl, rfl⟩

/-- C5 witness: the concrete first scan of `sampleStudent`. -/
theorem C5_witness :
    (buildLog sampleStudent 5000 none .Entry).id = logIdOf 5000 sampleStudent.id ∧
    (buildLog sampleStudent 5000 none .Entry).studentId = sampleStudent.id ∧
    (buildLog sampleStudent 5000 none .Entry).studentName = sampleStudent.name ∧
    (buildLog sampleStudent 5000 none .Entry).branch = sampleStudent.branch ∧
    (buildLog sampleStudent 5000 none .Entry).timestamp = 5000 ∧
    (buildLog sampleStudent 5000 none .Entry).imageMatch =
      verdictAsOptionBool (toVerdict (scanComparisonResult .manual none sampleStudent)) :=
  C5_log_construction sampleStudents [] ("id123".data) .manual none 5000 sampleStudent
    (buildLog sampleStudent 5000 none .Entry) (by rfl) (by rfl)

/-! ### C2: the rate-limit gate -/

/-- C2.  For a student whose last event is `l` and a call `d` whole
seconds later: if `d` is under the minimum interval the call fails with
`rateLimited (MIN - d)` and the store is unchanged; from the minimum
interval on it succeeds and appends exactly the built log. -/
theorem C2_rate_limit (students : List Student) (logs : List EntryLog)
    (studentId : List Char) (source : Source) (img : Option (List Char))
    (u : Student) (l : EntryLog) (d : ℕ)
    (hfind : getStudentById students studentId = some u)
    (hlast : getLastLogForStudent logs studentId = some l) :
    ((d : Int) < MIN_LIBRARY_INTERVAL_SECONDS →
      sharedProcessLogic students logs studentId source img (l.timestamp + 1000 * d) =
        (Except.error (.rateLimited (MIN_LIBRARY_INTERVAL_SECONDS - d)), logs)) ∧
    (MIN_LIBRARY_INTERVAL_SECONDS ≤ (d : Int) →
      sharedProcessLogic students logs studentId source img (l.timestamp + 1000 * d) =
        (Except.ok (buildLog u (l.timestamp + 1000 * d) (scanComparisonResult source img u)
            (if l.type = .Entry then .Exit else .Entry)),
          logs ++ [buildLog u (l.timestamp + 1000 * d) (scanComparisonResult source img u)
            (if l.type = .Entry then .Exit else .Entry)])) := by
  simp only [sharedProcessLogic, hfind, hlast]
  constructor
  · intro hd
    have hcond : l.timestamp + 1000 * (d : Int) - l.timestamp <
        MIN_LIBRARY_INTERVAL_SECONDS * 1000 := by
      simp only [MIN_LIBRARY_INTERVAL_SECONDS] at hd ⊢
      omega
    rw [if_pos hcond]
    have hnum : MIN_LIBRARY_INTERVAL_SECONDS * 1000 -
        (l.timestamp + 1000 * (d : Int) - l.timestamp) + 999 =
        999 + 1000 * (MIN_LIBRARY_INTERVAL_SECONDS - d) := by
      simp only [MIN_LIBRARY_INTERVAL_SECONDS]
      ring
    have hwait : (MIN_LIBRARY_INTERVAL_SECONDS * 1000 -
        (l.timestamp + 1000 * (d : Int) - l.timestamp) + 999) / 1000 =
        MIN_LIBRARY_INTERVAL_SECONDS - d := by
      rw [hnum, Int.add_mul_ediv_left 999 (MIN_LIBRARY_INTERVAL_SECONDS - (d : Int))
        (by norm_num), show (999 : Int) / 1000 = 0 from by decide, zero_add]
    rw [hwait]
  · intro hd
    have hcond : ¬ (l.timestamp + 1000 * (d : Int) - l.timestamp <
        MIN_LIBRARY_INTERVAL_SECONDS * 1000) := by
      simp only [MIN_LIBRARY_INTERVAL_SECONDS] at hd ⊢
      omega
    rw [if_neg hcond]
    rfl

/-- C2 witness: a scan of `sampleStudent` 3 s after `sampleLog` is
rate-limited with 7 s of remaining wait and writes nothing; a scan 12 s
after succeeds and appends the built Exit log. -/
theorem C2_witness :
    sharedProcessLogic sampleStudents [sampleLog] ("id123".data) .manual none
        (sampleLog.timestamp + 1000 * 3) =
      (Except.error (.rateLimited (MIN_LIBRARY_INTERVAL_SECONDS - 3)), [sampleLog]) ∧
    sharedProcessLogic sampleStudents [sampleLog] ("id123".data) .manual none
        (sampleLog.timestamp + 1000 * 12) =
      (Except.ok (buildLog sampleStudent (sampleLog.timestamp + 1000 * 12)
          (scanComparisonResult .manual none sampleStudent)
          (if sampleLog.type = .Entry then .Exit else .Entry)),
        [sampleLog] ++ [buildLog sampleStudent (sampleLog.timestamp + 1000 * 12)
          (scanComparisonResult .manual none sampleStudent)
          (if sampleLog.type = .Entry then .Exit else .Entry)]) :=
  ⟨(C2_rate_limit sampleStudents [sampleLog] ("id123".data) .manual none sampleStudent
      sampleLog 3 (by rfl) (by rfl)).1 (by decide),
   (C2_rate_limit sampleStudents [sampleLog] ("id123".data) .manual none sampleStudent
      sampleLog 12 (by rfl) (by rfl)).2 (by decide)⟩

/-! ### C6: the log-history reader -/

/-- The fold used by `getLastLogForStudent` returns a member of the
candidate list whose timestamp bounds every member's timestamp. -/
theorem pickMax_mem_le (xs : List EntryLog) : ∀ x : EntryLog,
    (xs.foldl (fun best l => if best.timestamp < l.timestamp then l else best) x) ∈ x :: xs ∧
    ∀ l ∈ x :: xs,
      l.timestamp ≤
        (xs.foldl (fun best l => if best.timestamp < l.timestamp then l else best) x).timestamp := by
  induction xs with
  | nil =>
    intro x
    refine ⟨List.mem_singleton_self x, ?_⟩
    intro l hl
    rw [List.mem_singleton] at hl
    exact hl ▸ le_refl _
  | cons y ys ih =>
    intro x
    simp only [List.foldl_cons]
    obtain ⟨hmem, hle⟩ := ih (if x.timestamp < y.timestamp then y else x)
    constructor
    · rcases List.mem_cons.mp hmem with h | h
      · rw [h]
        split
        · exact List.mem_cons_of_mem _ (List.mem_cons_self _ _)
        · exact List.mem_cons_self _ _
      · exact List.mem_cons_of_mem _ (List.mem_cons_of_mem _ h)
    · intro l hl
      rcases List.mem_cons.mp hl with h | h
      · subst h
        have hx : l.timestamp ≤ (if l.timestamp < y.timestamp then y else l).timestamp := by
          split
          · next hlt => exact le_of_lt hlt
          · exact le_refl _
        exact le_trans hx (hle _ (List.mem_cons_self _ _))
      · rcases List.mem_cons.mp h with h' | h'
        · subst h'
          have hy : l.timestamp ≤ (if x.timestamp < l.timestamp then l else x).timestamp := by
            split
            · exact le_refl _
            · next hnlt => exact le_of_not_lt hnlt
          exact le_trans hy (hle _ (List.mem_cons_self _ _))
        · exact hle _ (List.mem_cons_of_mem _ h')

/-- C6.  `getLastLogForStudent` filters the store by normalized student id
and returns an entry of maximal timestamp among the matches, or `none`
exactly when no entry matches — for a store in arbitrary order. -/
theorem C6_last_event (logs : List EntryLog) (studentId : List Char) :
    (getLastLogForStudent logs studentId = none ↔
      logsFor (normalizeId studentId) logs = []) ∧
    ∀ m, getLastLogForStudent logs studentId = some m →
      m ∈ logsFor (normalizeId studentId) logs ∧
      ∀ l ∈ logsFor (normalizeId studentId) logs, l.timestamp ≤ m.timestamp := by
  unfold getLastLogForStudent
  cases h : logsFor (normalizeId studentId) logs with
  | nil => exact ⟨by simp, by simp⟩
  | cons x xs =>
    constructor
    · simp
    · intro m hm
      simp only [Option.some.injEq] at hm
      obtain ⟨hmem, hle⟩ := pickMax_mem_le xs x
      subst hm
      exact ⟨hmem, hle⟩

/-- C6 witness: on the concrete two-log store the reader returns the
later log `sampleLog2`, a maximal-timestamp match. -/
theorem C6_witness :
    sampleLog2 ∈ logsFor (normalizeId ("id123".data)) [sampleLog, sampleLog2] :=
  ((C6_last_event [sampleLog, sampleLog2] ("id123".data)).2 sampleLog2 (by rfl)).1

/-! ### C7: identity-resolver normalization -/

/-- Dropping from the front past an all-satisfying block. -/
theorem dropWhile_append_of_forall {α : Type} {p : α → Bool} (w t : List α)
    (hw : ∀ c ∈ w, p c = true) : (w ++ t).dropWhile p = t.dropWhile p := by
  induction w with
  | nil => rfl
  | cons c cs ih =>
    rw [List.cons_append, List.dropWhile_cons, if_pos (hw c (List.mem_cons_self _ _))]
    exact ih (fun x hx => hw x (List.mem_cons_of_mem _ hx))

/-- When the front block is not dropped completely, appending happens
after the dropped region. -/
theorem dropWhile_append_of_ne_nil {α : Type} {p : α → Bool} (r t : List α)
    (hr : r.dropWhile p ≠ []) : (r ++ t).dropWhile p = r.dropWhile p ++ t := by
  induction r with
  | nil => exact absurd rfl hr
  | cons c cs ih =>
    by_cases hc : p c = true
    · rw [List.dropWhile_cons, if_pos hc] at hr
      rw [List.cons_append, List.dropWhile_cons, if_pos hc, List.dropWhile_cons, if_pos hc]
      exact ih hr
    · rw [List.cons_append, List.dropWhile_cons, if_neg hc, List.dropWhile_cons, if_neg hc,
        List.cons_append]

/-- Trimming ignores any surrounding whitespace. -/
theorem jsTrim_pad (w1 w2 r : List Char) (h1 : ∀ c ∈ w1, jsWhitespace c = true)
    (h2 : ∀ c ∈ w2, jsWhitespace c = true) : jsTrim (w1 ++ r ++ w2) = jsTrim r := by
  unfold jsTrim
  rw [List.append_assoc, dropWhile_append_of_forall w1 (r ++ w2) h1]
  by_cases hr : r.dropWhile jsWhitespace = []
  · rw [hr, dropWhile_append_of_forall r w2 (List.dropWhile_eq_nil_iff.mp hr),
      List.dropWhile_eq_nil_iff.mpr h2]
  · rw [dropWhile_append_of_ne_nil r w2 hr, List.reverse_append,
      dropWhile_append_of_forall w2.reverse _ (fun c hc => h2 c (List.mem_reverse.mp hc))]

/-- Letters are never whitespace. -/
theorem alpha_not_ws (c : Char) (h : c.isAlpha = true) : jsWhitespace c = false := by
  cases hw : jsWhitespace c
  · rfl
  · exfalso
    simp only [jsWhitespace, Bool.or_eq_true, decide_eq_true_eq] at hw
    rcases hw with ((((((h1 | h1) | h1) | h1) | h1) | h1) | h1) <;> subst h1 <;>
      exact absurd h (by decide)

/-- Characters equal up to letter case agree on being whitespace. -/
theorem charCaseEq_ws (c d : Char) (h : charCaseEq c d = true) :
    jsWhitespace c = jsWhitespace d := by
  simp only [charCaseEq, Bool.or_eq_true, Bool.and_eq_true, decide_eq_true_eq] at h
  rcases h with h | ⟨⟨hc, hd⟩, _⟩
  · subst h; rfl
  · rw [alpha_not_ws c hc, alpha_not_ws d hd]

/-- Characters equal up to letter case lower to the same character. -/
theorem charCaseEq_toLower (c d : Char) (h : charCaseEq c d = true) :
    c.toLower = d.toLower := by
  simp only [charCaseEq, Bool.or_eq_true, Bool.and_eq_true, decide_eq_true_eq] at h
  rcases h with h | ⟨_, h⟩
  · subst h; rfl
  · exact h

/-- Relation `caseVariant` is respected by dropping leading whitespace. -/
theorem caseVariant_dropWhile : ∀ (r r' : List Char), caseVariant r r' = true →
    caseVariant (r.dropWhile jsWhitespace) (r'.dropWhile jsWhitespace) = true := by
  intro r
  induction r with
  | nil =>
    intro r' h
    cases r' with
    | nil => exact h
    | cons d ds => exact absurd h (by simp [caseVariant])
  | cons c cs ih =>
    intro r' h
    cases r' with
    | nil => exact absurd h (by simp [caseVariant])
    | cons d ds =>
      simp only [caseVariant, Bool.and_eq_true] at h
      obtain ⟨hc, hrest⟩ := h
      have hw := charCaseEq_ws c d hc
      by_cases hwc : jsWhitespace c = true
      · have hwd : jsWhitespace d = true := by rw [← hw]; exact hwc
        rw [List.dropWhile_cons, List.dropWhile_cons, if_pos hwc, if_pos hwd]
        exact ih ds hrest
      · have hwd : ¬ jsWhitespace d = true := by rw [← hw]; exact hwc
        rw [List.dropWhile_cons, List.dropWhile_cons, if_neg hwc, if_neg hwd]
        simp only [caseVariant, Bool.and_eq_true]
        exact ⟨hc, hrest⟩

/-- Relation `caseVariant` is respected by append. -/
theorem caseVariant_append : ∀ {a b x y : List Char}, caseVariant a b = true →
    caseVariant x y = true → caseVariant (a ++ x) (b ++ y) = true := by
  intro a
  induction a with
  | nil =>
    intro b x y h1 h2
    cases b with
    | nil => simpa using h2
    | cons d ds => exact absurd h1 (by simp [caseVariant])
  | cons c cs ih =>
    intro b x y h1 h2
    cases b with
    | nil => exact absurd h1 (by simp [caseVariant])
    | cons d ds =>
      simp only [caseVariant, Bool.and_eq_true] at h1
      simp only [List.cons_append, caseVariant, Bool.and_eq_true]
      exact ⟨h1.1, ih h1.2 h2⟩

/-- Relation `caseVariant` is respected by reversal. -/
theorem caseVariant_reverse : ∀ {r r' : List Char}, caseVariant r r' = true →
    caseVariant r.reverse r'.reverse = true := by
  intro r
  induction r with
  | nil =>
    intro r' h
    cases r' with
    | nil => exact h
    | cons d ds => exact absurd h (by simp [caseVariant])
  | cons c cs ih =>
    intro r' h
    cases r' with
    | nil => exact absurd h (by simp [caseVariant])
    | cons d ds =>
      simp only [caseVariant, Bool.and_eq_true] at h
      rw [List.reverse_cons, List.reverse_cons]
      exact caseVariant_append (ih h.2) (by simp [caseVariant, h.1])

/-- Strings equal up to letter case lower to the same string. -/
theorem caseVariant_map_toLower : ∀ {r r' : List Char}, caseVariant r r' = true →
    r.map Char.toLower = r'.map Char.toLower := by
  intro r
  induction r with
  | nil =>
    intro r' h
    cases r' with
    | nil => rfl
    | cons d ds => exact absurd h (by simp [caseVariant])
  | cons c cs ih =>
    intro r' h
    cases r' with
    | nil => exact absurd h (by simp [caseVariant])
    | cons d ds =>
      simp only [caseVariant, Bool.and_eq_true] at h
      simp only [List.map_cons, charCaseEq_toLower c d h.1, ih h.2]

/-- Normalization identifies case variants. -/
theorem normalizeId_caseVariant {r r' : List Char} (h : caseVariant r r' = true) :
    normalizeId r = normalizeId r' := by
  unfold normalizeId jsToLower jsTrim
  exact caseVariant_map_toLower
    (caseVariant_reverse (caseVariant_dropWhile _ _
      (caseVariant_reverse (caseVariant_dropWhile _ _ h))))

/-- Normalization ignores surrounding whitespace. -/
theorem normalizeId_pad (w1 w2 r : List Char) (h1 : ∀ c ∈ w1, jsWhitespace c = true)
    (h2 : ∀ c ∈ w2, jsWhitespace c = true) : normalizeId (w1 ++ r ++ w2) = normalizeId r := by
  unfold normalizeId
  rw [jsTrim_pad w1 w2 r h1 h2]

/-- C7.  Resolution is invariant under surrounding whitespace and letter
case of the input (lookup trims and compares case-insensitively), and the
resolver reports not-found exactly when no stored id matches the
normalized input. -/
theorem C7_resolver_normalization :
    (∀ (students : List Student) (w1 w2 r r' : List Char),
      (∀ c ∈ w1, jsWhitespace c = true) → (∀ c ∈ w2, jsWhitespace c = true) →
      caseVariant r r' = true →
      getStudentById students (w1 ++ r ++ w2) = getStudentById students r') ∧
    (∀ (students : List Student) (r : List Char),
      getStudentById students r = none ↔
        ∀ s ∈ students, normalizeId s.id ≠ normalizeId r) := by
  constructor
  · intro students w1 w2 r r' hw1 hw2 hcv
    unfold getStudentById
    rw [normalizeId_pad w1 w2 r hw1 hw2, normalizeId_caseVariant hcv]
  · intro students r
    unfold getStudentById
    rw [List.find?_eq_none]
    constructor
    · intro h s hs
      have := h s hs
      simpa using this
    · intro h s hs
      simpa using h s hs

/-- C7 witness: `" ID123 "` and `"id123"` resolve identically on the
concrete store. -/
theorem C7_witness :
    getStudentById sampleStudents ([' '] ++ "ID123".data ++ [' ']) =
      getStudentById sampleStudents ("id123".data) :=
  C7_resolver_normalization.1 sampleStudents [' '] [' '] ("ID123".data) ("id123".data)
    (by decide) (by decide) (by decide)

/-! ### C8: case-insensitive id uniqueness across both mutation paths -/

/-- Trimming is idempotent. -/
theorem jsTrim_idem (s : List Char) : jsTrim (jsTrim s) = jsTrim s := by
  have hdefeq : ∀ t : List Char,
      jsTrim t = (t.dropWhile jsWhitespace).rdropWhile jsWhitespace := fun _ => rfl
  rw [hdefeq, hdefeq]
  have hfix : ((s.dropWhile jsWhitespace).rdropWhile jsWhitespace).dropWhile jsWhitespace =
      (s.dropWhile jsWhitespace).rdropWhile jsWhitespace := by
    rw [List.dropWhile_eq_self_iff]
    intro hl
    have hpre := List.rdropWhile_prefix jsWhitespace (s.dropWhile jsWhitespace)
    have hlen : 0 < (s.dropWhile jsWhitespace).length :=
      lt_of_lt_of_le hl hpre.length_le
    have hget := List.IsPrefix.getElem hpre (n := 0) hl
    have hAfix : (s.dropWhile jsWhitespace).dropWhile jsWhitespace =
        s.dropWhile jsWhitespace := List.dropWhile_idempotent _ _
    have hhead := List.dropWhile_eq_self_iff.mp hAfix hlen
    simpa [List.get_eq_getElem, hget] using hhead
  rw [hfix, List.rdropWhile_idempotent]

/-- Normalization ignores a prior trim (the stored id is the trimmed form
of the submitted id). -/
theorem normalizeId_jsTrim (s : List Char) : normalizeId (jsTrim s) = normalizeId s := by
  unfold normalizeId
  rw [jsTrim_idem]

/-- C8.  Both mutation paths preserve case-insensitive id uniqueness:
adding a student whose normalized id already exists is rejected without
change; editing a student to an id that collides (normalized) with a
different student's id is rejected without change; and both handlers map
a store satisfying the uniqueness invariant to a store satisfying it. -/
theorem C8_id_uniqueness :
    (∀ (students : List Student) (fd : StudentFormData) (img : Option (List Char)) (now : Int),
      (∃ s ∈ students, normalizeId s.id = normalizeId fd.id) →
      handleFormSubmit students fd img now = (false, students)) ∧
    (∀ (students : List Student) (ste : Student) (fd : StudentFormData)
        (img : Option (List Char)),
      (∃ s ∈ students, normalizeId s.id = normalizeId fd.id ∧ s.id ≠ ste.id) →
      handleEditSubmit students ste fd img = (false, students)) ∧
    (∀ (students : List Student) (fd : StudentFormData) (img : Option (List Char)) (now : Int),
      UniqueIds students → UniqueIds (handleFormSubmit students fd img now).2) ∧
    (∀ (students : List Student) (ste : Student) (fd : StudentFormData)
        (img : Option (List Char)),
      UniqueIds students → UniqueIds (handleEditSubmit students ste fd img).2) := by
  refine ⟨?_, ?_, ?_, ?_⟩
  · intro students fd img now hex
    unfold handleFormSubmit
    cases hf : students.find? (fun s => decide (normalizeId s.id = normalizeId fd.id)) with
    | some s => rfl
    | none =>
      exfalso
      obtain ⟨s, hs, hnorm⟩ := hex
      have := List.find?_eq_none.mp hf s hs
      simp only [decide_eq_true_eq] at this
      exact this hnorm
  · intro students ste fd img hex
    unfold handleEditSubmit
    cases hf : students.find? (fun s =>
        decide (normalizeId s.id = normalizeId fd.id) && !decide (s.id = ste.id)) with
    | some s => rfl
    | none =>
      exfalso
      obtain ⟨s, hs, hnorm, hne⟩ := hex
      have := List.find?_eq_none.mp hf s hs
      simp [hnorm, hne] at this
  · intro students fd img now hU
    unfold handleFormSubmit
    cases hf : students.find? (fun s => decide (normalizeId s.id = normalizeId fd.id)) with
    | some s => exact hU
    | none =>
      unfold UniqueIds at hU ⊢
      rw [List.pairwise_append]
      refine ⟨hU, List.pairwise_singleton _ _, ?_⟩
      intro a ha b hb
      rw [List.mem_singleton] at hb
      subst hb
      have hno := List.find?_eq_none.mp hf a ha
      simp only [decide_eq_true_eq] at hno
      intro hcontra
      exact hno (hcontra.trans (normalizeId_jsTrim fd.id))
  · intro students ste fd img hU
    unfold handleEditSubmit
    cases hf : students.find? (fun s =>
        decide (normalizeId s.id = normalizeId fd.id) && !decide (s.id = ste.id)) with
    | some s => exact hU
    | none =>
      unfold UniqueIds at hU ⊢
      rw [List.pairwise_map]
      refine hU.imp_of_mem ?_
      intro a b ha hb hR
      by_cases hax : a.id = ste.id <;> by_cases hbx : b.id = ste.id
      · exact absurd (congrArg normalizeId (hax.trans hbx.symm)) hR
      · simp only [if_pos hax, if_neg hbx]
        intro hcontra
        rw [normalizeId_jsTrim] at hcontra
        have hfb := List.find?_eq_none.mp hf b hb
        simp [hcontra.symm, hbx] at hfb
      · simp only [if_neg hax, if_pos hbx]
        intro hcontra
        rw [normalizeId_jsTrim] at hcontra
        have hfa := List.find?_eq_none.mp hf a ha
        simp [hcontra, hax] at hfa
      · simp only [if_neg hax, if_neg hbx]
        exact hR

/-- A second registered student, with an id unrelated to
`sampleStudent`. -/
def sampleStudent2 : Student :=
  { id := "ab9".data
    name := "Bea".data
    branch := "Civil Engg.".data
    enrollNo := some "E7".data
    yearOfStudy := some .SY
    idCardImageUri := none
    createdAt := 0 }

/-- A two-student store. -/
def sampleStudents2 : List Student := [sampleStudent, sampleStudent2]

/-- A form submission whose id collides with `sampleStudent` up to
trimming and case. -/
def formCollide : StudentFormData :=
  { id := " ID123".data
    name := "Bob".data
    branch := "Civil Engg.".data
    enrollNo := none
    yearOfStudy := none }

/-- A form submission with a fresh id. -/
def formFresh : StudentFormData :=
  { id := "zz7".data
    name := "Bob".data
    branch := "Civil Engg.".data
    enrollNo := none
    yearOfStudy := none }

/-- C8 witness: on the concrete store, a colliding add and a colliding
edit are rejected unchanged, and a fresh add and a fresh edit preserve
the uniqueness invariant. -/
theorem C8_witness :
    handleFormSubmit sampleStudents2 formCollide none 0 = (false, sampleStudents2) ∧
    handleEditSubmit sampleStudents2 sampleStudent2 formCollide none =
      (false, sampleStudents2) ∧
    UniqueIds (handleFormSubmit sampleStudents2 formFresh none 0).2 ∧
    UniqueIds (handleEditSubmit sampleStudents2 sampleStudent2 formFresh none).2 :=
  ⟨C8_id_uniqueness.1 sampleStudents2 formCollide none 0
      ⟨sampleStudent, by decide, by decide⟩,
   C8_id_uniqueness.2.1 sampleStudents2 sampleStudent2 formCollide none
      ⟨sampleStudent, by decide, by decide, by decide⟩,
   C8_id_uniqueness.2.2.1 sampleStudents2 formFresh none 0 (by unfold UniqueIds; decide),
   C8_id_uniqueness.2.2.2 sampleStudents2 sampleStudent2 formFresh none
     (by unfold UniqueIds; decide)⟩

/-! ### C1: the alternation invariant -/

/-- The reader reports no last event exactly when the student's filtered
history is empty. -/
theorem getLastLog_none_iff (logs : List EntryLog) (sid : List Char) :
    getLastLogForStudent logs sid = none ↔ logsFor (normalizeId sid) logs = [] := by
  unfold getLastLogForStudent
  cases h : logsFor (normalizeId sid) logs with
  | nil => simp
  | cons x xs => simp

/-- On a strictly ascending candidate list the fold of
`getLastLogForStudent` picks the last element. -/
theorem pickMax_sorted : ∀ (xs : List EntryLog) (x : EntryLog),
    sortedByTime (x :: xs) = true →
    xs.foldl (fun best l => if best.timestamp < l.timestamp then l else best) x =
      (x :: xs).getLast (List.cons_ne_nil x xs) := by
  intro xs
  induction xs with
  | nil => intro x _; rfl
  | cons y ys ih =>
    intro x h
    simp only [sortedByTime, Bool.and_eq_true, decide_eq_true_eq] at h
    simp only [List.foldl_cons]
    rw [if_pos h.1, ih y h.2]
    rfl

/-- On a strictly ascending history the reader returns the last filtered
entry. -/
theorem getLastLog_sorted_getLast (logs : List EntryLog) (sid : List Char)
    (hs : sortedByTime (logsFor (normalizeId sid) logs) = true) :
    getLastLogForStudent logs sid = (logsFor (normalizeId sid) logs).getLast? := by
  unfold getLastLogForStudent
  cases h : logsFor (normalizeId sid) logs with
  | nil => rfl
  | cons x xs =>
    rw [h] at hs
    show some (xs.foldl (fun best l => if best.timestamp < l.timestamp then l else best) x) =
      (x :: xs).getLast?
    rw [pickMax_sorted xs x hs, List.getLast?_eq_getLast _ (List.cons_ne_nil x xs)]

/-- Appending one log to the store appends to the student's filtered
history exactly when the log's normalized student id matches. -/
theorem logsFor_append (nid : List Char) (logs : List EntryLog) (z : EntryLog) :
    logsFor nid (logs ++ [z]) =
      logsFor nid logs ++ if normalizeId z.studentId = nid then [z] else [] := by
  unfold logsFor
  rw [List.filter_append]
  congr 1
  by_cases hz : normalizeId z.studentId = nid <;> simp [List.filter_cons, hz]

/-- Appending the flip of the last type keeps strict alternation. -/
theorem alternatesFrom_append_flip : ∀ (ts : List EntryType) (e t : EntryType),
    alternatesFrom e ts = true → ts.getLast? = some t →
    alternatesFrom e (ts ++ [flipType t]) = true := by
  intro ts
  induction ts with
  | nil => intro e t _ hlast; cases hlast
  | cons u us ih =>
    intro e t h hlast
    simp only [alternatesFrom, Bool.and_eq_true, decide_eq_true_eq] at h
    obtain ⟨hu, hrest⟩ := h
    subst hu
    cases us with
    | nil =>
      simp only [List.getLast?_singleton, Option.some.injEq] at hlast
      subst hlast
      simp [alternatesFrom]
    | cons v vs =>
      rw [List.getLast?_cons_cons] at hlast
      rw [List.cons_append]
      show (decide (u = u) && alternatesFrom (flipType u) ((v :: vs) ++ [flipType t])) = true
      rw [Bool.and_eq_true]
      exact ⟨by simp, ih (flipType u) t hrest hlast⟩

/-- Appending a strictly later log keeps the history strictly
ascending. -/
theorem sortedByTime_append : ∀ (l : List EntryLog) (z : EntryLog),
    sortedByTime l = true → (∀ m, l.getLast? = some m → m.timestamp < z.timestamp) →
    sortedByTime (l ++ [z]) = true := by
  intro l
  induction l with
  | nil => intro z _ _; rfl
  | cons x xs ih =>
    intro z h hlt
    cases xs with
    | nil =>
      have hx := hlt x (by simp)
      simp [sortedByTime, hx]
    | cons y ys =>
      simp only [sortedByTime, Bool.and_eq_true] at h
      simp only [List.cons_append, sortedByTime, Bool.and_eq_true]
      refine ⟨h.1, ?_⟩
      have := ih z h.2 (fun m hm => hlt m (by rw [List.getLast?_cons_cons]; exact hm))
      simpa using this

/-- The resolved student's stored id has the normal form of the query. -/
theorem getStudentById_norm (students : List Student) (rid : List Char) (u : Student)
    (h : getStudentById students rid = some u) : normalizeId u.id = normalizeId rid := by
  unfold getStudentById at h
  have := List.find?_some h
  simpa using this

/-- The Entry/Exit choice of the engine is `flipType`. -/
theorem ite_flipType (t : EntryType) :
    (if t = .Entry then EntryType.Exit else .Entry) = flipType t := by
  cases t <;> rfl

@[simp]
theorem buildLog_studentId (s : Student) (now : Int) (im : Option Bool) (act : EntryType) :
    (buildLog s now im act).studentId = s.id := rfl

@[simp]
theorem buildLog_type (s : Student) (now : Int) (im : Option Bool) (act : EntryType) :
    (buildLog s now im act).type = act := rfl

@[simp]
theorem buildLog_timestamp (s : Student) (now : Int) (im : Option Bool) (act : EntryType) :
    (buildLog s now im act).timestamp = now := rfl

/-- One `sharedProcessLogic` call preserves the per-student history
invariant (strictly ascending timestamps, alternation from Entry). -/
theorem goodHistory_step (students : List Student) (logs : List EntryLog) (r : ScanRequest)
    (nid : List Char) (hr : normalizeId r.rawId = nid)
    (h : goodHistory nid logs = true) : goodHistory nid (stepLogs students logs r) = true := by
  unfold goodHistory at h
  simp only [Bool.and_eq_true] at h
  obtain ⟨hsort, halt⟩ := h
  cases hf : getStudentById students r.rawId with
  | none =>
    have hstep : stepLogs students logs r = logs := by
      simp only [stepLogs, sharedProcessLogic, hf]
    rw [hstep]
    unfold goodHistory
    simp [hsort, halt]
  | some u =>
    have hu : normalizeId u.id = nid := (getStudentById_norm _ _ _ hf).trans hr
    cases hl : getLastLogForStudent logs r.rawId with
    | none =>
      have hempty : logsFor nid logs = [] := by
        rw [← hr]
        exact (getLastLog_none_iff logs r.rawId).mp hl
      have hstep : stepLogs students logs r =
          logs ++ [buildLog u r.now (scanComparisonResult r.source r.image u) .Entry] := by
        simp only [stepLogs, sharedProcessLogic, hf, hl, saveEntryLog]
      rw [hstep]
      unfold goodHistory
      rw [logsFor_append, hempty]
      simp only [buildLog_studentId]
      rw [if_pos hu]
      simp [sortedByTime, alternatesFrom]
    | some lastLog =>
      by_cases hrate : r.now - lastLog.timestamp < MIN_LIBRARY_INTERVAL_SECONDS * 1000
      · have hstep : stepLogs students logs r = logs := by
          simp only [stepLogs, sharedProcessLogic, hf, hl, if_pos hrate]
        rw [hstep]
        unfold goodHistory
        simp [hsort, halt]
      · have hstep : stepLogs students logs r =
            logs ++ [buildLog u r.now (scanComparisonResult r.source r.image u)
              (if lastLog.type = .Entry then .Exit else .Entry)] := by
          simp only [stepLogs, sharedProcessLogic, hf, hl, if_neg hrate, saveEntryLog]
        have hglast : (logsFor nid logs).getLast? = some lastLog := by
          have hgl := getLastLog_sorted_getLast logs r.rawId (by rw [hr]; exact hsort)
          rw [hl, hr] at hgl
          exact hgl.symm
        have hlt : lastLog.timestamp < r.now := by
          simp only [MIN_LIBRARY_INTERVAL_SECONDS] at hrate
          omega
        rw [hstep]
        unfold goodHistory
        rw [logsFor_append]
        simp only [buildLog_studentId]
        rw [if_pos hu]
        simp only [Bool.and_eq_true]
        constructor
        · exact sortedByTime_append _ _ hsort (fun m hm => by
            rw [hglast] at hm
            injection hm with hm
            subst hm
            exact hlt)
        · rw [List.map_append]
          have hmaplast : ((logsFor nid logs).map (·.type)).getLast? = some lastLog.type := by
            rw [List.getLast?_map, hglast]
            rfl
          have hz : (buildLog u r.now (scanComparisonResult r.source r.image u)
              (if lastLog.type = .Entry then .Exit else .Entry)).type = flipType lastLog.type :=
            ite_flipType lastLog.type
          simp only [List.map_cons, List.map_nil, hz]
          exact alternatesFrom_append_flip _ _ _ halt hmaplast

/-- A whole sequence of calls preserves the per-student history
invariant. -/
theorem goodHistory_run (students : List Student) (reqs : List ScanRequest) :
    ∀ (logs : List EntryLog) (nid : List Char), (∀ r ∈ reqs, normalizeId r.rawId = nid) →
    goodHistory nid logs = true → goodHistory nid (runRequests students logs reqs) = true := by
  induction reqs with
  | nil => intro logs nid _ h; exact h
  | cons r rs ih =>
    intro logs nid hall h
    simp only [runRequests, List.foldl_cons]
    exact ih (stepLogs students logs r) nid
      (fun q hq => hall q (List.mem_cons_of_mem _ hq))
      (goodHistory_step students logs r nid (hall r (List.mem_cons_self _ _)) h)

/-- C1.  Alternation invariant: starting from a store with no logs for the
student, any sequence of classification requests for that student leaves
the student's filtered history strictly ascending in timestamp (so store
order is the ascending timestamp order) with types strictly alternating
from Entry; moreover a single classification yields Entry when there is
no last event, and the flip of the last event's type otherwise. -/
theorem C1_alternation :
    (∀ (students : List Student) (logs0 : List EntryLog) (nid : List Char)
        (reqs : List ScanRequest),
      logsFor nid logs0 = [] →
      (∀ r ∈ reqs, normalizeId r.rawId = nid) →
      sortedByTime (logsFor nid (runRequests students logs0 reqs)) = true ∧
      alternatesFrom .Entry
        ((logsFor nid (runRequests students logs0 reqs)).map (·.type)) = true) ∧
    (∀ (students : List Student) (logs : List EntryLog) (sid : List Char) (source : Source)
        (img : Option (List Char)) (now : Int) (lg : EntryLog),
      getLastLogForStudent logs sid = none →
      (sharedProcessLogic students logs sid source img now).1 = Except.ok lg →
      lg.type = .Entry) ∧
    (∀ (students : List Student) (logs : List EntryLog) (sid : List Char) (source : Source)
        (img : Option (List Char)) (now : Int) (l lg : EntryLog),
      getLastLogForStudent logs sid = some l →
      (sharedProcessLogic students logs sid source img now).1 = Except.ok lg →
      lg.type = flipType l.type) := by
  refine ⟨?_, ?_, ?_⟩
  · intro students logs0 nid reqs hempty hall
    have h0 : goodHistory nid logs0 = true := by
      unfold goodHistory
      rw [hempty]
      rfl
    have := goodHistory_run students reqs logs0 nid hall h0
    unfold goodHistory at this
    simpa [Bool.and_eq_true] using this
  · intro students logs sid source img now lg hl hok
    cases hf : getStudentById students sid with
    | none => simp [sharedProcessLogic, hf] at hok
    | some u =>
      simp only [sharedProcessLogic, hf, hl] at hok
      have hok2 : Except.ok (buildLog u now (scanComparisonResult source img u) .Entry) =
          Except.ok lg := hok
      injection hok2 with h
      rw [← h]
      rfl
  · intro students logs sid source img now l lg hl hok
    cases hf : getStudentById students sid with
    | none => simp [sharedProcessLogic, hf] at hok
    | some u =>
      simp only [sharedProcessLogic, hf, hl] at hok
      by_cases hrate : now - l.timestamp < MIN_LIBRARY_INTERVAL_SECONDS * 1000
      · rw [if_pos hrate] at hok
        simp at hok
      · rw [if_neg hrate] at hok
        have hok2 : Except.ok (buildLog u now (scanComparisonResult source img u)
            (if l.type = .Entry then .Exit else .Entry)) = Except.ok lg := hok
        injection hok2 with h
        rw [← h]
        exact ite_flipType l.type

/-- C1 witness: a concrete two-request run for `sampleStudent` (first
scan at 5 s, second at 16 s) yields a strictly ascending, alternating
history; a first classification is an Entry and the follow-up flips the
Entry to an Exit. -/
theorem C1_witness :
    (sortedByTime (logsFor (normalizeId ("id123".data)) (runRequests sampleStudents []
        [⟨"id123".data, .manual, none, 5000⟩, ⟨"ID123 ".data, .manual, none, 16000⟩])) = true ∧
      alternatesFrom .Entry ((logsFor (normalizeId ("id123".data)) (runRequests sampleStudents []
        [⟨"id123".data, .manual, none, 5000⟩, ⟨"ID123 ".data, .manual, none, 16000⟩])).map
          (·.type)) = true) ∧
    (buildLog sampleStudent 5000 none .Entry).type = .Entry ∧
    (buildLog sampleStudent 16000 none .Exit).type = flipType sampleLog.type :=
  ⟨C1_alternation.1 sampleStudents [] (normalizeId ("id123".data))
      [⟨"id123".data, .manual, none, 5000⟩, ⟨"ID123 ".data, .manual, none, 16000⟩]
      (by rfl) (by decide),
   C1_alternation.2.1 sampleStudents [] ("id123".data) .manual none 5000
      (buildLog sampleStudent 5000 none .Entry) (by rfl) (by rfl),
   C1_alternation.2.2 sampleStudents [sampleLog] ("id123".data) .manual none 16000 sampleLog
      (buildLog sampleStudent 16000 none .Exit) (by rfl) (by rfl)⟩

end Agppi
